import Mathlib

/-!
Verification of the filagram-backend cryptographic core against its
natural-language specification.

The development shallowly embeds two parts of the repository:

* `src/main.go`: the X25519 hybrid message envelope
  (`generateKeyPair`, `EncryptMessage`, `DecryptMessage`).
* `src/internal/core/jwt.go`: JWT issuance and verification
  (`NewAccess`, `NewRefresh`, `VerifyAccess`, `VerifyRefresh`).

Modelling conventions:

* Byte strings are `List Nat` (entries are conceptually bytes; no claim
  needs the 0..255 bound, so it is not imposed).
* Randomness drawn inside a Go function (`io.ReadFull(rand.Reader, ...)`)
  is passed in as an explicit random tape (`EncRandom`, or the `sk`
  argument of `generateKeyPair`), with the lengths the Go code allocates
  stated as hypotheses.
* Go's three-way outcome (return value / returned `error` / runtime
  panic) is the inductive `GoResult`.
* The Diffie-Hellman group used by `curve25519.X25519` is modelled as the
  free commutative model: a point is (the 32-"byte" little-endian
  encoding of) a natural number, the basepoint encodes 9 (the real
  curve25519 basepoint u-coordinate), and scalar multiplication is
  multiplication by the faithfully clamped scalar
  (`e[0] &= 248; e[31] &= 127; e[31] |= 64`, i.e.
  `2^254 + 8*((n/8) mod 2^251)`).  `X25519` fails exactly on the code's
  error cases: wrong input length or an all-zero output.
* AES-GCM (`cipher.NewGCM` + `Seal`/`Open`) and HKDF (`hkdf.Key` with
  SHA3-256) are probabilistic-crypto primitives external to the
  repository; they are taken as function parameters constrained by the
  standard ideal-AEAD/ideal-KDF axioms (`GCMCorrect`, `GCMAuth`,
  `GCMSealInj`, `GCMFlipReject`, `HKDFLen`, `HKDFSaltInj`), which the
  real primitives satisfy except with negligible probability.  The
  executable instances `gcmSealW`/`gcmOpenW`/`hkdfW` witness that the
  axioms are jointly satisfiable.
* `aes.NewCipher` fails exactly when the key length is not 16/24/32;
  `cipher.NewGCM` over AES never fails and has nonce size 12.
* Clock time is an injected integer of Unix seconds; `time.Now()` calls
  inside one function are the same instant.
* golang-jwt v5 `jwt.Parse` is modelled with its documented default
  behaviour: keyfunc (algorithm check), then signature verification,
  then default claims validation, which rejects a token whose `exp` is
  not strictly in the future (`now.Before(exp)`); `iat` is not validated
  at parse time (no `WithIssuedAt`).  Ed25519 signatures are symbolic:
  a token records which private key signed it.
-/

/-- Byte strings as lists of naturals. -/
abbrev Bytes := List Nat

/-- Outcome of a Go function: normal result, returned `error`, or panic. -/
inductive GoResult (α : Type) where
  | ok (a : α) : GoResult α
  | err (msg : String) : GoResult α
  | panicked (msg : String) : GoResult α
deriving DecidableEq, Repr

/-- GCM nonce size: `cipher.NewGCM(...).NonceSize()` is 12. -/
def gcmNonceSize : Nat := 12

/-- `sha3.New256().Size()` is 32: the KEK length requested from HKDF. -/
def sha3Size : Nat := 32

/-- `aes.NewCipher` succeeds exactly for key sizes 16, 24, 32. -/
def aesKeyLenOK (k : Bytes) : Bool :=
  k.length == 16 || k.length == 24 || k.length == 32

/-- Little-endian value of a byte string (`b[0] + 256*b[1] + ...`). -/
def leDecode : Bytes → Nat
  | [] => 0
  | b :: bs => b + 256 * leDecode bs

/-- `w`-element little-endian encoding of a natural; the final entry
absorbs any overflow so the encoding is injective for every value
(symbolic bytes: entries may exceed 255 for large values). -/
def leBytesW (w r : Nat) : Bytes :=
  match w with
  | 0 => []
  | w' + 1 => if w' = 0 then [r] else r % 256 :: leBytesW w' (r / 256)

/-- X25519 scalar clamping: clear the low 3 bits, clear bit 255, set
bit 254.  Arithmetically `2^254 + 8*((n/8) mod 2^251)`. -/
def clampVal (n : Nat) : Nat := 2 ^ 254 + 8 * ((n / 8) % 2 ^ 251)

/-- `curve25519.X25519(scalar, point)`: errors on wrong input lengths or
an all-zero output, otherwise returns the scalar multiple (free
commutative model: multiplication of the clamped scalar with the
decoded point). -/
def X25519 (scalar point : Bytes) : Option Bytes :=
  if scalar.length = 32 ∧ point.length = 32 then
    let r := clampVal (leDecode scalar) * leDecode point
    if r = 0 then none else some (leBytesW 32 r)
  else none

/-- `curve25519.Basepoint`: the byte string `[9, 0, ..., 0]`. -/
def basepoint : Bytes := leBytesW 32 9

/-- The public key derived from a 32-byte private key, as
`generateKeyPair` computes it via the basepoint. -/
def pkOf (sk : Bytes) : Bytes := leBytesW 32 (clampVal (leDecode sk) * 9)

/-- `generateKeyPair` (src/main.go:34-46): the random tape `sk` is the
32 bytes read from `rand.Reader`; the X25519 error case panics. -/
def generateKeyPair (sk : Bytes) : GoResult (Bytes × Bytes) :=
  match X25519 sk basepoint with
  | some pk => .ok (pk, sk)
  | none => .panicked "bad input point"

/-- The message envelope (struct `Message`, src/main.go:28-32). -/
structure Message where
  content : Bytes
  aesSecret : Bytes
  sharedSecretSalt : Bytes
deriving DecidableEq, Repr

/-- The four random draws `EncryptMessage` makes, in order: the 16-byte
message key, the 12-byte content nonce, the 32-byte salt, and the
12-byte key-wrap nonce. -/
structure EncRandom where
  messageAes : Bytes
  messageNonce : Bytes
  sharedSecretSalt : Bytes
  encKeyNonce : Bytes
deriving DecidableEq, Repr

/-- `EncryptMessage` (src/main.go:119-179), parameterised by the AEAD
seal function and HKDF.  `gcmSeal key nonce plaintext` is the ciphertext
body; the Go `Seal(nonce, nonce, pt, nil)` call prepends the nonce.
The `aes.NewCipher(messageAes)` error is a panic in the source
(line 127); the later errors are returned. -/
def EncryptMessage (gcmSeal : Bytes → Bytes → Bytes → Bytes)
    (hkdfKey : Bytes → Bytes → Nat → Bytes)
    (r : EncRandom) (content publicKey privateKey : Bytes) :
    GoResult Message :=
  if aesKeyLenOK r.messageAes then
    let messageCipherText :=
      r.messageNonce ++ gcmSeal r.messageAes r.messageNonce content
    match X25519 privateKey publicKey with
    | none => .err "bad scalar or point"
    | some rawShared =>
      let sharedSecret := hkdfKey rawShared r.sharedSecretSalt sha3Size
      if aesKeyLenOK sharedSecret then
        let encKeyEncrypted :=
          r.encKeyNonce ++ gcmSeal sharedSecret r.encKeyNonce r.messageAes
        .ok ⟨messageCipherText, encKeyEncrypted, r.sharedSecretSalt⟩
      else .err "crypto/aes: invalid key size"
  else .panicked "crypto/aes: invalid key size"

/-- `DecryptMessage` (src/main.go:181-228), parameterised by the AEAD
open function and HKDF.  The slicings `aesSecret[:NonceSize()]` /
`content[:NonceSize()]` panic when the field is shorter than the nonce
size; a failed `Open` returns the GCM authentication error. -/
def DecryptMessage (gcmOpen : Bytes → Bytes → Bytes → Option Bytes)
    (hkdfKey : Bytes → Bytes → Nat → Bytes)
    (message : Message) (publicKey privateKey : Bytes) :
    GoResult Bytes :=
  match X25519 privateKey publicKey with
  | none => .err "bad scalar or point"
  | some rawShared =>
    let sharedSecret := hkdfKey rawShared message.sharedSecretSalt sha3Size
    if aesKeyLenOK sharedSecret then
      if gcmNonceSize ≤ message.aesSecret.length then
        match gcmOpen sharedSecret (message.aesSecret.take gcmNonceSize)
            (message.aesSecret.drop gcmNonceSize) with
        | none => .err "cipher: message authentication failed"
        | some messageAes =>
          if aesKeyLenOK messageAes then
            if gcmNonceSize ≤ message.content.length then
              match gcmOpen messageAes (message.content.take gcmNonceSize)
                  (message.content.drop gcmNonceSize) with
              | none => .err "cipher: message authentication failed"
              | some plainText => .ok plainText
            else .panicked "slice bounds out of range"
          else .err "crypto/aes: invalid key size"
      else .panicked "slice bounds out of range"
    else .err "crypto/aes: invalid key size"

/-- Flip bit `j` of the `i`-th byte of a byte string. -/
def flipBit (bs : Bytes) (i j : Nat) : Bytes :=
  bs.set i (bs.getD i 0 ^^^ 2 ^ j)

/-- Ideal-AEAD axiom: opening a sealed ciphertext with the sealing key
and nonce recovers the plaintext. -/
def GCMCorrect (gcmSeal : Bytes → Bytes → Bytes → Bytes)
    (gcmOpen : Bytes → Bytes → Bytes → Option Bytes) : Prop :=
  ∀ k n p, gcmOpen k n (gcmSeal k n p) = some p

/-- Ideal-AEAD axiom (ciphertext integrity): any accepted ciphertext is
the seal of its plaintext under the opening key and nonce. -/
def GCMAuth (gcmSeal : Bytes → Bytes → Bytes → Bytes)
    (gcmOpen : Bytes → Bytes → Bytes → Option Bytes) : Prop :=
  ∀ k n c p, gcmOpen k n c = some p → c = gcmSeal k n p

/-- Ideal-AEAD axiom: sealing is injective in key, nonce and plaintext
jointly (no cross-key/nonce ciphertext collisions). -/
def GCMSealInj (gcmSeal : Bytes → Bytes → Bytes → Bytes) : Prop :=
  ∀ k n p k' n' p', gcmSeal k n p = gcmSeal k' n' p' →
    k = k' ∧ n = n' ∧ p = p'

/-- Ideal-AEAD axiom: a valid ciphertext with any single byte-position
altered by a bit flip no longer authenticates. -/
def GCMFlipReject (gcmSeal : Bytes → Bytes → Bytes → Bytes)
    (gcmOpen : Bytes → Bytes → Bytes → Option Bytes) : Prop :=
  ∀ k n p i j, i < (gcmSeal k n p).length →
    gcmOpen k n (flipBit (gcmSeal k n p) i j) = none

/-- Ideal-KDF axiom: HKDF returns exactly the requested 32 bytes. -/
def HKDFLen (hkdfKey : Bytes → Bytes → Nat → Bytes) : Prop :=
  ∀ ikm salt, (hkdfKey ikm salt 32).length = 32

/-- Ideal-KDF axiom: for a fixed input keying material, HKDF is
injective on 32-byte salts (distinct salts give distinct keys). -/
def HKDFSaltInj (hkdfKey : Bytes → Bytes → Nat → Bytes) : Prop :=
  ∀ ikm s s', s.length = 32 → s'.length = 32 →
    hkdfKey ikm s 32 = hkdfKey ikm s' 32 → s = s'

/-- Self-delimiting length-prefixed encoding of a (key, nonce,
plaintext) triple, used by the executable ideal-AEAD instance. -/
def encTriple (k n p : Bytes) : Bytes :=
  k.length :: n.length :: p.length :: (k ++ n ++ p)

/-- Executable ideal-AEAD seal: the encoded triple, duplicated (the
second copy plays the authentication tag). -/
def gcmSealW (k n p : Bytes) : Bytes := encTriple k n p ++ encTriple k n p

/-- Executable ideal-AEAD open: check the two halves agree, parse the
length-prefixed triple, and check key and nonce. -/
def gcmOpenW (k n c : Bytes) : Option Bytes :=
  let L := c.length / 2
  let t₁ := c.take L
  let t₂ := c.drop L
  if t₁ = t₂ then
    match t₁ with
    | lk :: ln :: lp :: rest =>
      if rest.length = lk + ln + lp then
        let k' := rest.take lk
        let n' := (rest.drop lk).take ln
        let p := rest.drop (lk + ln)
        if k' = k ∧ n' = n ∧ lp = p.length then some p else none
      else none
    | _ => none
  else none

/-- Executable ideal-KDF instance: pad or truncate the salt to the
requested length (injective on full-length salts, length-correct). -/
def hkdfW (_ikm salt : Bytes) (len : Nat) : Bytes :=
  salt.take len ++ List.replicate (len - salt.length) 0

/-- The shared-secret value both sides compute in the free DH model. -/
def sharedVal (skA skB : Bytes) : Nat :=
  clampVal (leDecode skA) * (clampVal (leDecode skB) * 9)

/-- The raw shared secret bytes `X25519(skA, pkOf skB)` yields. -/
def sharedBytes (skA skB : Bytes) : Bytes := leBytesW 32 (sharedVal skA skB)

/- ------------------------------------------------------------------
JWT model (src/internal/core/jwt.go).
------------------------------------------------------------------ -/

/-- Signing algorithm of a presented token: `jwt.SigningMethodEdDSA` or
anything else (rejected by the keyfunc). -/
inductive SigAlg where
  | EdDSA : SigAlg
  | otherAlg : SigAlg
deriving DecidableEq, Repr

/-- Which Ed25519 private key produced a token's signature (symbolic
signature model: a signature verifies under exactly the matching public
key). -/
inductive SigKey where
  | accessKey : SigKey
  | refreshKey : SigKey
  | otherKey (n : Nat) : SigKey
deriving DecidableEq, Repr

/-- The claim set `NewAccess`/`NewRefresh` build (`sub`, `iss`, `exp`,
`iat`, `typ`); times are Unix seconds. -/
structure Claims where
  sub : String
  iss : String
  exp : Int
  iat : Int
  typ : String
deriving DecidableEq, Repr

/-- A signed JWT as presented to verification. -/
structure Token where
  alg : SigAlg
  claims : Claims
  key : SigKey
deriving DecidableEq, Repr

def issSignin : String := "https://auth.filagram.pl/signin"

def issRefresh : String := "https://auth.filagram.pl/refresh-token"

/-- `NewAccess` (jwt.go:13-23): EdDSA token under the access private
key with `exp = now + 2h`, `iat = now`, `typ = "access_token"`. -/
def NewAccess (now : Int) (id iss : String) : Token :=
  ⟨.EdDSA, ⟨id, iss, now + 7200, now, "access_token"⟩, .accessKey⟩

/-- `NewRefresh` (jwt.go:24-34): EdDSA token under the refresh private
key with `exp = now + 7d`, `iat = now`, `typ = "refresh_token"`. -/
def NewRefresh (now : Int) (id iss : String) : Token :=
  ⟨.EdDSA, ⟨id, iss, now + 604800, now, "refresh_token"⟩, .refreshKey⟩

/-- golang-jwt v5 `jwt.Parse` with the keyfunc of jwt.go: reject a
non-Ed25519 signing method, verify the signature against the expected
public key, then run default claims validation, which rejects a token
whose expiry is not strictly in the future. -/
def jwtParse (expected : SigKey) (now : Int) (t : Token) :
    GoResult Claims :=
  if t.alg ≠ .EdDSA then
    .err "token is unverifiable: unexpected signing method"
  else if t.key ≠ expected then
    .err "token signature is invalid: ed25519: verification error"
  else if ¬ now < t.claims.exp then
    .err "token has invalid claims: token is expired"
  else .ok t.claims

/-- `VerifyAccess` (jwt.go:35-66): parse with the access public key,
then check issuer (two accepted values), `iat < now`, `exp ≥ now`, and
`typ = "access_token"`. -/
def VerifyAccess (now : Int) (token : Token) : GoResult Claims :=
  match jwtParse .accessKey now token with
  | .err m => .err m
  | .panicked m => .panicked m
  | .ok claims =>
    if ¬ (claims.iss = issRefresh ∨ claims.iss = issSignin) then
      .err "invalid token"
    else if claims.iat ≥ now then .err "invalid token"
    else if claims.exp < now then .err "token expired"
    else if claims.typ ≠ "access_token" then .err "invalid token"
    else .ok claims

/-- `VerifyRefresh` (jwt.go:67-95): parse with the refresh public key,
then check issuer (one accepted value), `iat < now`, `exp ≥ now`.
The source performs no `typ` check here. -/
def VerifyRefresh (now : Int) (token : Token) : GoResult Claims :=
  match jwtParse .refreshKey now token with
  | .err m => .err m
  | .panicked m => .panicked m
  | .ok claims =>
    if claims.iss ≠ issSignin then .err "invalid token"
    else if claims.iat ≥ now then .err "invalid token"
    else if claims.exp < now then .err "token expired"
    else .ok claims

/- ------------------------------------------------------------------
Concrete inputs used by the witness theorems.
------------------------------------------------------------------ -/

/-- Concrete 32-byte private key A for witnesses. -/
def skA0 : Bytes := List.replicate 32 2

/-- Concrete 32-byte private key B for witnesses. -/
def skB0 : Bytes := List.replicate 32 3

/-- Concrete random tape for witnesses. -/
def r0 : EncRandom :=
  ⟨List.replicate 16 7, List.replicate 12 8, List.replicate 32 9,
    List.replicate 12 10⟩

/-- Concrete plaintext ("hi") for witnesses. -/
def content0 : Bytes := [104, 105]

/-- The envelope `EncryptMessage` produces from `r0`, `content0` and the
concrete keys, under the executable ideal instances. -/
def msg0 : Message :=
  ⟨r0.messageNonce ++ gcmSealW r0.messageAes r0.messageNonce content0,
   r0.encKeyNonce ++ gcmSealW
     (hkdfW (sharedBytes skA0 skB0) r0.sharedSecretSalt sha3Size)
     r0.encKeyNonce r0.messageAes,
   r0.sharedSecretSalt⟩

/- ------------------------------------------------------------------
Helper lemmas: encodings, clamping, X25519 algebra.
------------------------------------------------------------------ -/

theorem length_leBytesW (w r : Nat) : (leBytesW w r).length = w := by
  induction w generalizing r with
  | zero => simp [leBytesW]
  | succ w ih =>
    by_cases h : w = 0
    · subst h; simp [leBytesW]
    · simp [leBytesW, if_neg h, ih]

theorem leDecode_leBytesW (w r : Nat) (hw : 1 ≤ w) :
    leDecode (leBytesW w r) = r := by
  induction w generalizing r with
  | zero => omega
  | succ w ih =>
    by_cases h : w = 0
    · subst h; simp [leBytesW, leDecode]
    · simp only [leBytesW, if_neg h]
      simp only [leDecode, ih (r / 256) (by omega)]
      omega

theorem clampVal_pos (n : Nat) : 0 < clampVal n :=
  Nat.lt_of_lt_of_le (Nat.pos_pow_of_pos 254 (by decide))
    (Nat.le_add_right _ _)

theorem leDecode_pkOf (sk : Bytes) :
    leDecode (pkOf sk) = clampVal (leDecode sk) * 9 :=
  leDecode_leBytesW _ _ (by omega)

theorem length_pkOf (sk : Bytes) : (pkOf sk).length = 32 :=
  length_leBytesW _ _

theorem X25519_pkOf (skA skB : Bytes) (hA : skA.length = 32) :
    X25519 skA (pkOf skB) = some (sharedBytes skA skB) := by
  have hpos : 0 < clampVal (leDecode skA) * (clampVal (leDecode skB) * 9) :=
    Nat.mul_pos (clampVal_pos _) (Nat.mul_pos (clampVal_pos _) (by decide))
  simp [X25519, hA, length_pkOf, leDecode_pkOf, sharedBytes, sharedVal,
    hpos.ne']

theorem sharedBytes_symm (skA skB : Bytes) :
    sharedBytes skA skB = sharedBytes skB skA := by
  unfold sharedBytes sharedVal
  rw [mul_left_comm]

theorem generateKeyPair_eq (sk : Bytes) (h : sk.length = 32) :
    generateKeyPair sk = .ok (pkOf sk, sk) := by
  have hdec : leDecode basepoint = 9 := leDecode_leBytesW _ _ (by omega)
  have hlen : basepoint.length = 32 := length_leBytesW _ _
  have hpos : 0 < clampVal (leDecode sk) * 9 :=
    Nat.mul_pos (clampVal_pos _) (by decide)
  simp [generateKeyPair, X25519, h, hlen, hdec, pkOf, hpos.ne']

/- ------------------------------------------------------------------
Helper lemmas: lists, bit flips.
------------------------------------------------------------------ -/

theorem set_append_left (a b : Bytes) (i v : Nat) (h : i < a.length) :
    (a ++ b).set i v = a.set i v ++ b := by
  induction a generalizing i with
  | nil => simp at h
  | cons x xs ih =>
    cases i with
    | zero => simp
    | succ i =>
      simp only [List.cons_append, List.set]
      exact congrArg (x :: ·) (ih i (by simpa using h))

theorem set_append_right (a b : Bytes) (i v : Nat) (h : a.length ≤ i) :
    (a ++ b).set i v = a ++ b.set (i - a.length) v := by
  induction a generalizing i with
  | nil => simp
  | cons x xs ih =>
    cases i with
    | zero => simp at h
    | succ i =>
      simp only [List.cons_append, List.set, List.length_cons,
        Nat.succ_sub_succ]
      exact congrArg (x :: ·) (ih i (by simpa using h))

theorem getD_set_self (l : Bytes) (i v : Nat) (h : i < l.length) :
    (l.set i v).getD i 0 = v := by
  simp [List.getD_eq_getElem?_getD, List.getElem?_set_self', h]

theorem xor_two_pow_ne (b j : Nat) : b ^^^ 2 ^ j ≠ b := by
  intro h
  have h2 : b ^^^ (b ^^^ 2 ^ j) = b ^^^ b := congrArg (b ^^^ ·) h
  rw [← Nat.xor_assoc, Nat.xor_self, Nat.zero_xor] at h2
  exact absurd h2 (Nat.pos_pow_of_pos j (by decide)).ne'

theorem length_flipBit (bs : Bytes) (i j : Nat) :
    (flipBit bs i j).length = bs.length := List.length_set bs i _

theorem flipBit_ne (bs : Bytes) (i j : Nat) (h : i < bs.length) :
    flipBit bs i j ≠ bs := by
  intro he
  have hg : (flipBit bs i j).getD i 0 = bs.getD i 0 := by rw [he]
  rw [flipBit, getD_set_self bs i _ h] at hg
  exact xor_two_pow_ne _ _ hg

theorem flipBit_append_left (a b : Bytes) (i j : Nat) (h : i < a.length) :
    flipBit (a ++ b) i j = flipBit a i j ++ b := by
  unfold flipBit
  rw [List.getD_append a b 0 i h, set_append_left a b i _ h]

theorem flipBit_append_right (a b : Bytes) (i j : Nat) (h : a.length ≤ i) :
    flipBit (a ++ b) i j = a ++ flipBit b (i - a.length) j := by
  unfold flipBit
  rw [set_append_right _ _ _ _ h, List.getD_append_right a b 0 i h]

theorem take_len_append (a b : Bytes) (n : Nat) (h : a.length = n) :
    (a ++ b).take n = a := by
  subst h; exact List.take_left a b

theorem drop_len_append (a b : Bytes) (n : Nat) (h : a.length = n) :
    (a ++ b).drop n = b := by
  subst h; exact List.drop_left a b

theorem aesKeyLenOK_16 (k : Bytes) (h : k.length = 16) :
    aesKeyLenOK k = true := by simp [aesKeyLenOK, h]

theorem aesKeyLenOK_32 (k : Bytes) (h : k.length = 32) :
    aesKeyLenOK k = true := by simp [aesKeyLenOK, h]

/- ------------------------------------------------------------------
The executable ideal-AEAD / ideal-KDF instances satisfy the axioms.
------------------------------------------------------------------ -/

theorem hkdfW_len : HKDFLen hkdfW := by
  intro ikm salt
  simp only [hkdfW, List.length_append, List.length_take,
    List.length_replicate, Nat.min_def]
  split <;> omega

theorem hkdfW_saltInj : HKDFSaltInj hkdfW := by
  intro ikm s s' hs hs' h
  have e : ∀ t : Bytes, t.length = 32 → hkdfW ikm t 32 = t := by
    intro t ht
    have h0 : (32 : Nat) - t.length = 0 := by omega
    simp only [hkdfW, h0, List.replicate_zero, List.append_nil]
    rw [← ht, List.take_length]
  rwa [e s hs, e s' hs'] at h

theorem length_encTriple (k n p : Bytes) :
    (encTriple k n p).length = 3 + (k.length + n.length + p.length) := by
  simp [encTriple, List.length_append]
  omega

theorem gcmSealW_halves (k n p : Bytes) :
    (gcmSealW k n p).length / 2 = (encTriple k n p).length ∧
      (gcmSealW k n p).take (encTriple k n p).length = encTriple k n p ∧
      (gcmSealW k n p).drop (encTriple k n p).length = encTriple k n p := by
  refine ⟨?_, List.take_left _ _, List.drop_left _ _⟩
  simp [gcmSealW, List.length_append]
  omega

theorem gcmW_correct : GCMCorrect gcmSealW gcmOpenW := by
  intro k n p
  obtain ⟨h1, h2, h3⟩ := gcmSealW_halves k n p
  unfold gcmOpenW
  simp only [h1, h2, h3, if_pos rfl]
  show (match encTriple k n p with
    | lk :: ln :: lp :: rest => _
    | _ => none) = some p
  simp only [encTriple]
  have hrest : (k ++ n ++ p).length = k.length + n.length + p.length := by
    simp only [List.length_append]
  rw [if_pos hrest]
  have htk : (k ++ n ++ p).take k.length = k := by
    rw [List.append_assoc]
    exact List.take_left _ _
  have htd : (k ++ n ++ p).drop k.length = n ++ p := by
    rw [List.append_assoc]
    exact List.drop_left _ _
  have htn : ((k ++ n ++ p).drop k.length).take n.length = n := by
    rw [htd]; exact List.take_left _ _
  have htp : (k ++ n ++ p).drop (k.length + n.length) = p := by
    exact drop_len_append (k ++ n) p _ (by simp)
  simp [htk, htn, htp]

theorem gcmW_sealInj : GCMSealInj gcmSealW := by
  intro k n p k' n' p' h
  unfold gcmSealW at h
  have hlen : (encTriple k n p).length = (encTriple k' n' p').length := by
    have hc := congrArg List.length h
    simp only [List.length_append] at hc
    omega
  obtain ⟨ht, -⟩ := List.append_inj h hlen
  unfold encTriple at ht
  injection ht with h1 ht
  injection ht with h2 ht
  injection ht with h3 hbody
  have h12 : (k ++ n).length = (k' ++ n').length := by
    simp only [List.length_append, h1, h2]
  obtain ⟨hkn, hp⟩ := List.append_inj hbody h12
  obtain ⟨hk, hn⟩ := List.append_inj hkn h1
  exact ⟨hk, hn, hp⟩

theorem gcmW_flipReject : GCMFlipReject gcmSealW gcmOpenW := by
  intro k n p i j hi
  have hlen : (gcmSealW k n p).length =
      (encTriple k n p).length + (encTriple k n p).length := by
    simp [gcmSealW, List.length_append]
  by_cases hc : i < (encTriple k n p).length
  · have hf : flipBit (gcmSealW k n p) i j =
        flipBit (encTriple k n p) i j ++ encTriple k n p :=
      flipBit_append_left _ _ i j hc
    rw [hf]
    unfold gcmOpenW
    have hL : (flipBit (encTriple k n p) i j ++ encTriple k n p).length / 2 =
        (encTriple k n p).length := by
      simp only [List.length_append, length_flipBit]
      omega
    have h2 : (flipBit (encTriple k n p) i j ++ encTriple k n p).take
        (encTriple k n p).length = flipBit (encTriple k n p) i j :=
      take_len_append _ _ _ (length_flipBit _ _ _)
    have h3 : (flipBit (encTriple k n p) i j ++ encTriple k n p).drop
        (encTriple k n p).length = encTriple k n p :=
      drop_len_append _ _ _ (length_flipBit _ _ _)
    simp only [hL, h2, h3]
    rw [if_neg (flipBit_ne _ i j hc)]
  · have hile : (encTriple k n p).length ≤ i := Nat.le_of_not_lt hc
    have hi' : i - (encTriple k n p).length < (encTriple k n p).length := by
      rw [hlen] at hi
      omega
    have hf : flipBit (gcmSealW k n p) i j =
        encTriple k n p ++ flipBit (encTriple k n p)
          (i - (encTriple k n p).length) j :=
      flipBit_append_right _ _ i j hile
    rw [hf]
    unfold gcmOpenW
    have hL : (encTriple k n p ++ flipBit (encTriple k n p)
        (i - (encTriple k n p).length) j).length / 2 =
        (encTriple k n p).length := by
      simp only [List.length_append, length_flipBit]
      omega
    have h2 : (encTriple k n p ++ flipBit (encTriple k n p)
        (i - (encTriple k n p).length) j).take (encTriple k n p).length =
        encTriple k n p :=
      List.take_left _ _
    have h3 : (encTriple k n p ++ flipBit (encTriple k n p)
        (i - (encTriple k n p).length) j).drop (encTriple k n p).length =
        flipBit (encTriple k n p) (i - (encTriple k n p).length) j :=
      List.drop_left _ _
    simp only [hL, h2, h3]
    rw [if_neg (Ne.symm (flipBit_ne _ _ j hi'))]

theorem gcmW_auth : GCMAuth gcmSealW gcmOpenW := by
  intro k n c p h
  simp only [gcmOpenW] at h
  split at h
  case isFalse => cases h
  case isTrue heq =>
    split at h
    case h_2 => cases h
    case h_1 lk ln lp rest hm =>
      split at h
      case isFalse => cases h
      case isTrue hr =>
        split at h
        case isFalse => cases h
        case isTrue hck =>
          obtain ⟨hk, hn, hlp⟩ := hck
          injection h with hp
          subst hp
          have hlk : lk = k.length := by
            rw [← hk, List.length_take]
            omega
          have hln : ln = n.length := by
            rw [← hn, List.length_take, List.length_drop]
            omega
          subst hlk
          subst hln
          have hdd : (rest.drop k.length).drop n.length =
              rest.drop (k.length + n.length) := by
            rw [List.drop_drop]
          have hsplit : rest = k ++ n ++ rest.drop (k.length + n.length) := by
            conv_lhs => rw [← List.take_append_drop k.length rest,
              ← List.take_append_drop n.length (rest.drop k.length)]
            rw [hk, hn, hdd, List.append_assoc]
          have ht1 : c.take (c.length / 2) =
              encTriple k n (rest.drop (k.length + n.length)) := by
            rw [hm]
            unfold encTriple
            rw [hlp]
            exact congrArg (fun z => k.length :: n.length ::
              (rest.drop (k.length + n.length)).length :: z) hsplit
          calc c = c.take (c.length / 2) ++ c.drop (c.length / 2) :=
                (List.take_append_drop _ c).symm
            _ = c.take (c.length / 2) ++ c.take (c.length / 2) := by rw [heq]
            _ = gcmSealW k n (rest.drop (k.length + n.length)) := by
                rw [ht1]; rfl

/- ------------------------------------------------------------------
Evaluation lemmas for the envelope codec.
------------------------------------------------------------------ -/

theorem EncryptMessage_pk (gcmSeal : Bytes → Bytes → Bytes → Bytes)
    (hkdfKey : Bytes → Bytes → Nat → Bytes) (hL : HKDFLen hkdfKey)
    (r : EncRandom) (content skA skB : Bytes)
    (h16 : r.messageAes.length = 16) (hA : skA.length = 32) :
    EncryptMessage gcmSeal hkdfKey r content (pkOf skB) skA =
      .ok ⟨r.messageNonce ++ gcmSeal r.messageAes r.messageNonce content,
        r.encKeyNonce ++ gcmSeal
          (hkdfKey (sharedBytes skA skB) r.sharedSecretSalt sha3Size)
          r.encKeyNonce r.messageAes,
        r.sharedSecretSalt⟩ := by
  have hk : aesKeyLenOK
      (hkdfKey (sharedBytes skA skB) r.sharedSecretSalt 32) = true :=
    aesKeyLenOK_32 _ (hL (sharedBytes skA skB) r.sharedSecretSalt)
  simp [EncryptMessage, aesKeyLenOK_16 _ h16, X25519_pkOf skA skB hA,
    sha3Size, hk]

theorem DecryptMessage_panic_aesSecret
    (gcmOpen : Bytes → Bytes → Bytes → Option Bytes)
    (hkdfKey : Bytes → Bytes → Nat → Bytes) (hL : HKDFLen hkdfKey)
    (msg : Message) (skA skB : Bytes) (hB : skB.length = 32)
    (hshort : msg.aesSecret.length < 12) :
    DecryptMessage gcmOpen hkdfKey msg (pkOf skA) skB =
      .panicked "slice bounds out of range" := by
  have hk : aesKeyLenOK
      (hkdfKey (sharedBytes skB skA) msg.sharedSecretSalt 32) = true :=
    aesKeyLenOK_32 _ (hL (sharedBytes skB skA) msg.sharedSecretSalt)
  simp [DecryptMessage, X25519_pkOf skB skA hB, sha3Size, hk,
    gcmNonceSize, Nat.not_le.mpr hshort]

theorem DecryptMessage_step
    (gcmOpen : Bytes → Bytes → Bytes → Option Bytes)
    (hkdfKey : Bytes → Bytes → Nat → Bytes)
    (msg : Message) (skA skB : Bytes) (hB : skB.length = 32)
    (hK : aesKeyLenOK
      (hkdfKey (sharedBytes skB skA) msg.sharedSecretSalt sha3Size) = true)
    (h12 : gcmNonceSize ≤ msg.aesSecret.length) :
    DecryptMessage gcmOpen hkdfKey msg (pkOf skA) skB =
      match gcmOpen
          (hkdfKey (sharedBytes skB skA) msg.sharedSecretSalt sha3Size)
          (msg.aesSecret.take gcmNonceSize)
          (msg.aesSecret.drop gcmNonceSize) with
      | none => .err "cipher: message authentication failed"
      | some messageAes =>
        if aesKeyLenOK messageAes then
          if gcmNonceSize ≤ msg.content.length then
            match gcmOpen messageAes (msg.content.take gcmNonceSize)
                (msg.content.drop gcmNonceSize) with
            | none => .err "cipher: message authentication failed"
            | some plainText => .ok plainText
          else .panicked "slice bounds out of range"
        else .err "crypto/aes: invalid key size"
    := by
  simp [DecryptMessage, X25519_pkOf skB skA hB, hK, h12]

/- ------------------------------------------------------------------
Claim theorems.
------------------------------------------------------------------ -/

/-- C9: for every two valid X25519 keypairs whose public keys are
derived from the private keys via the basepoint as `generateKeyPair`
does, the two shared-secret computations agree:
`X25519(skA, pkB) = X25519(skB, pkA)` (and both succeed). -/
theorem C9_shared_secret_symm (skA skB pkA pkB : Bytes)
    (hA : skA.length = 32) (hB : skB.length = 32)
    (hgA : generateKeyPair skA = .ok (pkA, skA))
    (hgB : generateKeyPair skB = .ok (pkB, skB)) :
    X25519 skA pkB = X25519 skB pkA ∧
      X25519 skA pkB = some (sharedBytes skA skB) := by
  have hpkA : pkA = pkOf skA := by
    rw [generateKeyPair_eq skA hA] at hgA
    injection hgA with h
    exact (congrArg Prod.fst h).symm
  have hpkB : pkB = pkOf skB := by
    rw [generateKeyPair_eq skB hB] at hgB
    injection hgB with h
    exact (congrArg Prod.fst h).symm
  subst hpkA
  subst hpkB
  refine ⟨?_, X25519_pkOf skA skB hA⟩
  rw [X25519_pkOf skA skB hA, X25519_pkOf skB skA hB, sharedBytes_symm]

/-- Witness for C9 at concrete 32-byte private keys. -/
theorem C9_shared_secret_symm_witness :
    X25519 (List.replicate 32 2) (pkOf (List.replicate 32 3)) =
      X25519 (List.replicate 32 3) (pkOf (List.replicate 32 2)) ∧
    X25519 (List.replicate 32 2) (pkOf (List.replicate 32 3)) =
      some (sharedBytes (List.replicate 32 2) (List.replicate 32 3)) :=
  C9_shared_secret_symm _ _ _ _ (by simp) (by simp)
    (generateKeyPair_eq _ (by simp)) (generateKeyPair_eq _ (by simp))

/-- C1: for every content byte string (including the empty string) and
every pair of valid keypairs generated as `generateKeyPair` does,
decrypting an encryption succeeds and returns exactly the content
(`DecryptMessage` returns the plaintext bytes; Go's final
`string(plainText)` conversion is byte-preserving). -/
theorem C1_roundtrip
    (gcmSeal : Bytes → Bytes → Bytes → Bytes)
    (gcmOpen : Bytes → Bytes → Bytes → Option Bytes)
    (hkdfKey : Bytes → Bytes → Nat → Bytes)
    (hC : GCMCorrect gcmSeal gcmOpen) (hL : HKDFLen hkdfKey)
    (r : EncRandom) (h16 : r.messageAes.length = 16)
    (hn1 : r.messageNonce.length = 12) (hn2 : r.encKeyNonce.length = 12)
    (content skA skB pkA pkB : Bytes)
    (hA : skA.length = 32) (hB : skB.length = 32)
    (hgA : generateKeyPair skA = .ok (pkA, skA))
    (hgB : generateKeyPair skB = .ok (pkB, skB)) :
    ∃ msg, EncryptMessage gcmSeal hkdfKey r content pkB skA = .ok msg ∧
      DecryptMessage gcmOpen hkdfKey msg pkA skB = .ok content := by
  have hpkA : pkA = pkOf skA := by
    rw [generateKeyPair_eq skA hA] at hgA
    injection hgA with h
    exact (congrArg Prod.fst h).symm
  have hpkB : pkB = pkOf skB := by
    rw [generateKeyPair_eq skB hB] at hgB
    injection hgB with h
    exact (congrArg Prod.fst h).symm
  subst hpkA
  subst hpkB
  refine ⟨_, EncryptMessage_pk gcmSeal hkdfKey hL r content skA skB h16 hA,
    ?_⟩
  have hsym : sharedBytes skB skA = sharedBytes skA skB :=
    sharedBytes_symm skB skA
  have hK : aesKeyLenOK (hkdfKey (sharedBytes skB skA)
      r.sharedSecretSalt sha3Size) = true :=
    aesKeyLenOK_32 _ (hL _ _)
  have hlen2 : gcmNonceSize ≤ (r.encKeyNonce ++ gcmSeal
      (hkdfKey (sharedBytes skA skB) r.sharedSecretSalt sha3Size)
      r.encKeyNonce r.messageAes).length := by
    simp [gcmNonceSize, List.length_append, hn2]
  rw [DecryptMessage_step gcmOpen hkdfKey _ skA skB hB hK hlen2]
  rw [show (gcmNonceSize : Nat) = 12 from rfl] at *
  simp only [hsym]
  rw [take_len_append _ _ _ hn2, drop_len_append _ _ _ hn2, hC]
  simp only [aesKeyLenOK_16 _ h16, if_true]
  have hlen1 : 12 ≤ (r.messageNonce ++
      gcmSeal r.messageAes r.messageNonce content).length := by
    simp [List.length_append, hn1]
  rw [if_pos hlen1, take_len_append _ _ _ hn1, drop_len_append _ _ _ hn1, hC]

/-- Witness for C1: a concrete round trip with the executable ideal
AEAD/KDF instances. -/
theorem C1_roundtrip_witness :
    ∃ msg, EncryptMessage gcmSealW hkdfW
        ⟨List.replicate 16 7, List.replicate 12 8, List.replicate 32 9,
          List.replicate 12 10⟩ [104, 105]
        (pkOf (List.replicate 32 3)) (List.replicate 32 2) = .ok msg ∧
      DecryptMessage gcmOpenW hkdfW msg
        (pkOf (List.replicate 32 2)) (List.replicate 32 3) =
        .ok [104, 105] :=
  C1_roundtrip gcmSealW gcmOpenW hkdfW gcmW_correct hkdfW_len _
    (by simp) (by simp) (by simp) _ _ _ _ _ (by simp) (by simp)
    (generateKeyPair_eq _ (by simp)) (generateKeyPair_eq _ (by simp))

/-- C8: every envelope `EncryptMessage` returns has the shape
`content = nonce(12) ++ Seal(messageKey, nonce, plaintext)`,
`aesSecret = nonce(12) ++ Seal(KEK, nonce, messageKey)` with
`KEK = HKDF(X25519 shared secret, salt, 32)` of the full 32-byte
SHA3-256 output size, independent of the 16-byte wrapped message key,
and `sharedSecretSalt` the freshly drawn 32-byte salt. -/
theorem C8_envelope_shape
    (gcmSeal : Bytes → Bytes → Bytes → Bytes)
    (hkdfKey : Bytes → Bytes → Nat → Bytes) (hL : HKDFLen hkdfKey)
    (r : EncRandom) (h16 : r.messageAes.length = 16)
    (hn1 : r.messageNonce.length = 12) (hn2 : r.encKeyNonce.length = 12)
    (hsalt : r.sharedSecretSalt.length = 32)
    (content skA skB : Bytes) (hA : skA.length = 32) :
    ∃ rawShared,
      X25519 skA (pkOf skB) = some rawShared ∧
      EncryptMessage gcmSeal hkdfKey r content (pkOf skB) skA = .ok
        ⟨r.messageNonce ++ gcmSeal r.messageAes r.messageNonce content,
         r.encKeyNonce ++ gcmSeal
           (hkdfKey rawShared r.sharedSecretSalt sha3Size)
           r.encKeyNonce r.messageAes,
         r.sharedSecretSalt⟩ ∧
      r.messageNonce.length = 12 ∧ r.encKeyNonce.length = 12 ∧
      r.sharedSecretSalt.length = 32 ∧ r.messageAes.length = 16 ∧
      (hkdfKey rawShared r.sharedSecretSalt sha3Size).length = 32 ∧
      sha3Size = 32 :=
  ⟨sharedBytes skA skB, X25519_pkOf skA skB hA,
    EncryptMessage_pk gcmSeal hkdfKey hL r content skA skB h16 hA,
    hn1, hn2, hsalt, h16, hL _ _, rfl⟩

/-- Witness for C8 at concrete inputs. -/
theorem C8_envelope_shape_witness :
    ∃ rawShared,
      X25519 (List.replicate 32 2) (pkOf (List.replicate 32 3)) =
        some rawShared ∧
      EncryptMessage gcmSealW hkdfW
        ⟨List.replicate 16 7, List.replicate 12 8, List.replicate 32 9,
          List.replicate 12 10⟩ [104, 105]
        (pkOf (List.replicate 32 3)) (List.replicate 32 2) = .ok
        ⟨List.replicate 12 8 ++ gcmSealW (List.replicate 16 7)
            (List.replicate 12 8) [104, 105],
         List.replicate 12 10 ++ gcmSealW
           (hkdfW rawShared (List.replicate 32 9) sha3Size)
           (List.replicate 12 10) (List.replicate 16 7),
         List.replicate 32 9⟩ ∧
      (List.replicate 12 8 : Bytes).length = 12 ∧
      (List.replicate 12 10 : Bytes).length = 12 ∧
      (List.replicate 32 9 : Bytes).length = 32 ∧
      (List.replicate 16 7 : Bytes).length = 16 ∧
      (hkdfW rawShared (List.replicate 32 9) sha3Size).length = 32 ∧
      sha3Size = 32 :=
  C8_envelope_shape gcmSealW hkdfW hkdfW_len _ (by simp) (by simp)
    (by simp) (by simp) [104, 105] _ (List.replicate 32 3) (by simp)

/-- An ideal AEAD rejects a valid ciphertext presented under a
different key or nonce. -/
theorem gcmOpen_none_of_ne (gcmSeal : Bytes → Bytes → Bytes → Bytes)
    (gcmOpen : Bytes → Bytes → Bytes → Option Bytes)
    (hAu : GCMAuth gcmSeal gcmOpen) (hInj : GCMSealInj gcmSeal)
    (k n p k' n' : Bytes) (hne : ¬ (k' = k ∧ n' = n)) :
    gcmOpen k' n' (gcmSeal k n p) = none := by
  cases h : gcmOpen k' n' (gcmSeal k n p) with
  | none => rfl
  | some q =>
    have hc := hAu k' n' _ q h
    obtain ⟨hk, hn, -⟩ := hInj k n p k' n' q hc
    exact absurd ⟨hk.symm, hn.symm⟩ hne

/-- C4: for every envelope produced by `EncryptMessage`, flipping any
single bit of `content`, `aesSecret` or `sharedSecretSalt` makes
`DecryptMessage` (with the matching keys) return the authentication
error — never a plaintext. -/
theorem C4_tamper_detection
    (gcmSeal : Bytes → Bytes → Bytes → Bytes)
    (gcmOpen : Bytes → Bytes → Bytes → Option Bytes)
    (hkdfKey : Bytes → Bytes → Nat → Bytes)
    (hC : GCMCorrect gcmSeal gcmOpen) (hAu : GCMAuth gcmSeal gcmOpen)
    (hInj : GCMSealInj gcmSeal) (hFlip : GCMFlipReject gcmSeal gcmOpen)
    (hL : HKDFLen hkdfKey) (hS : HKDFSaltInj hkdfKey)
    (r : EncRandom) (h16 : r.messageAes.length = 16)
    (hn1 : r.messageNonce.length = 12) (hn2 : r.encKeyNonce.length = 12)
    (hsalt : r.sharedSecretSalt.length = 32)
    (content skA skB : Bytes) (hA : skA.length = 32) (hB : skB.length = 32)
    (msg : Message)
    (hmsg : EncryptMessage gcmSeal hkdfKey r content (pkOf skB) skA =
      .ok msg) (i j : Nat) :
    (i < msg.content.length →
      DecryptMessage gcmOpen hkdfKey
        ⟨flipBit msg.content i j, msg.aesSecret, msg.sharedSecretSalt⟩
        (pkOf skA) skB = .err "cipher: message authentication failed") ∧
    (i < msg.aesSecret.length →
      DecryptMessage gcmOpen hkdfKey
        ⟨msg.content, flipBit msg.aesSecret i j, msg.sharedSecretSalt⟩
        (pkOf skA) skB = .err "cipher: message authentication failed") ∧
    (i < msg.sharedSecretSalt.length →
      DecryptMessage gcmOpen hkdfKey
        ⟨msg.content, msg.aesSecret, flipBit msg.sharedSecretSalt i j⟩
        (pkOf skA) skB = .err "cipher: message authentication failed") := by
  rw [EncryptMessage_pk gcmSeal hkdfKey hL r content skA skB h16 hA] at hmsg
  injection hmsg with hm
  subst hm
  dsimp only
  have hsym : sharedBytes skB skA = sharedBytes skA skB :=
    sharedBytes_symm skB skA
  refine ⟨?_, ?_, ?_⟩
  · intro hi
    have hK : aesKeyLenOK (hkdfKey (sharedBytes skB skA)
        r.sharedSecretSalt sha3Size) = true := aesKeyLenOK_32 _ (hL _ _)
    have h12 : gcmNonceSize ≤ (r.encKeyNonce ++ gcmSeal
        (hkdfKey (sharedBytes skA skB) r.sharedSecretSalt sha3Size)
        r.encKeyNonce r.messageAes).length := by
      simp [gcmNonceSize, List.length_append, hn2]
    rw [DecryptMessage_step gcmOpen hkdfKey _ skA skB hB hK h12]
    dsimp only
    rw [show (gcmNonceSize : Nat) = 12 from rfl, hsym,
      take_len_append _ _ _ hn2, drop_len_append _ _ _ hn2, hC]
    simp only [aesKeyLenOK_16 _ h16, if_true]
    have hflen : (12 : Nat) ≤ (flipBit (r.messageNonce ++
        gcmSeal r.messageAes r.messageNonce content) i j).length := by
      rw [length_flipBit]
      simp [List.length_append, hn1]
    rw [if_pos hflen]
    by_cases hcase : i < r.messageNonce.length
    · rw [flipBit_append_left _ _ i j hcase,
        take_len_append _ _ _ (by rw [length_flipBit, hn1]),
        drop_len_append _ _ _ (by rw [length_flipBit, hn1]),
        gcmOpen_none_of_ne gcmSeal gcmOpen hAu hInj r.messageAes
          r.messageNonce content r.messageAes
          (flipBit r.messageNonce i j)
          (fun hand => absurd hand.2 (flipBit_ne _ _ _ hcase))]
    · have hge : r.messageNonce.length ≤ i := Nat.le_of_not_lt hcase
      rw [flipBit_append_right _ _ i j hge,
        take_len_append _ _ _ hn1, drop_len_append _ _ _ hn1]
      have hidx : i - r.messageNonce.length <
          (gcmSeal r.messageAes r.messageNonce content).length := by
        simp only [List.length_append] at hi
        omega
      rw [hFlip r.messageAes r.messageNonce content _ j hidx]
  · intro hi
    have hK : aesKeyLenOK (hkdfKey (sharedBytes skB skA)
        r.sharedSecretSalt sha3Size) = true := aesKeyLenOK_32 _ (hL _ _)
    have h12 : gcmNonceSize ≤ (flipBit (r.encKeyNonce ++ gcmSeal
        (hkdfKey (sharedBytes skA skB) r.sharedSecretSalt sha3Size)
        r.encKeyNonce r.messageAes) i j).length := by
      rw [length_flipBit]
      simp [gcmNonceSize, List.length_append, hn2]
    rw [DecryptMessage_step gcmOpen hkdfKey _ skA skB hB hK h12]
    dsimp only
    rw [show (gcmNonceSize : Nat) = 12 from rfl, hsym]
    by_cases hcase : i < r.encKeyNonce.length
    · rw [flipBit_append_left _ _ i j hcase,
        take_len_append _ _ _ (by rw [length_flipBit, hn2]),
        drop_len_append _ _ _ (by rw [length_flipBit, hn2]),
        gcmOpen_none_of_ne gcmSeal gcmOpen hAu hInj
          (hkdfKey (sharedBytes skA skB) r.sharedSecretSalt sha3Size)
          r.encKeyNonce r.messageAes
          (hkdfKey (sharedBytes skA skB) r.sharedSecretSalt sha3Size)
          (flipBit r.encKeyNonce i j)
          (fun hand => absurd hand.2 (flipBit_ne _ _ _ hcase))]
    · have hge : r.encKeyNonce.length ≤ i := Nat.le_of_not_lt hcase
      rw [flipBit_append_right _ _ i j hge,
        take_len_append _ _ _ hn2, drop_len_append _ _ _ hn2]
      have hidx : i - r.encKeyNonce.length < (gcmSeal
          (hkdfKey (sharedBytes skA skB) r.sharedSecretSalt sha3Size)
          r.encKeyNonce r.messageAes).length := by
        simp only [List.length_append] at hi
        omega
      rw [hFlip _ r.encKeyNonce r.messageAes _ j hidx]
  · intro hi
    have hK : aesKeyLenOK (hkdfKey (sharedBytes skB skA)
        (flipBit r.sharedSecretSalt i j) sha3Size) = true :=
      aesKeyLenOK_32 _ (hL _ _)
    have h12 : gcmNonceSize ≤ (r.encKeyNonce ++ gcmSeal
        (hkdfKey (sharedBytes skA skB) r.sharedSecretSalt sha3Size)
        r.encKeyNonce r.messageAes).length := by
      simp [gcmNonceSize, List.length_append, hn2]
    rw [DecryptMessage_step gcmOpen hkdfKey _ skA skB hB hK h12]
    dsimp only
    rw [show (gcmNonceSize : Nat) = 12 from rfl, hsym,
      take_len_append _ _ _ hn2, drop_len_append _ _ _ hn2]
    have hne : ¬ (hkdfKey (sharedBytes skA skB)
        (flipBit r.sharedSecretSalt i j) sha3Size =
        hkdfKey (sharedBytes skA skB) r.sharedSecretSalt sha3Size ∧
        r.encKeyNonce = r.encKeyNonce) := by
      intro hand
      have heqs := hS (sharedBytes skA skB) _ _
        (by rw [length_flipBit, hsalt]) hsalt hand.1
      exact absurd heqs (flipBit_ne _ _ _ (by omega))
    rw [gcmOpen_none_of_ne gcmSeal gcmOpen hAu hInj
      (hkdfKey (sharedBytes skA skB) r.sharedSecretSalt sha3Size)
      r.encKeyNonce r.messageAes
      (hkdfKey (sharedBytes skA skB) (flipBit r.sharedSecretSalt i j)
        sha3Size) r.encKeyNonce hne]

/-- Witness for C4: each of the three fields of a concrete envelope,
with its first byte's low bit flipped, is rejected. -/
theorem C4_tamper_detection_witness :
    0 < msg0.content.length ∧
    DecryptMessage gcmOpenW hkdfW
      ⟨flipBit msg0.content 0 0, msg0.aesSecret, msg0.sharedSecretSalt⟩
      (pkOf skA0) skB0 = .err "cipher: message authentication failed" ∧
    0 < msg0.aesSecret.length ∧
    DecryptMessage gcmOpenW hkdfW
      ⟨msg0.content, flipBit msg0.aesSecret 0 0, msg0.sharedSecretSalt⟩
      (pkOf skA0) skB0 = .err "cipher: message authentication failed" ∧
    0 < msg0.sharedSecretSalt.length ∧
    DecryptMessage gcmOpenW hkdfW
      ⟨msg0.content, msg0.aesSecret, flipBit msg0.sharedSecretSalt 0 0⟩
      (pkOf skA0) skB0 = .err "cipher: message authentication failed" := by
  have h := C4_tamper_detection gcmSealW gcmOpenW hkdfW gcmW_correct
    gcmW_auth gcmW_sealInj gcmW_flipReject hkdfW_len hkdfW_saltInj
    r0 (by simp [r0]) (by simp [r0]) (by simp [r0]) (by simp [r0])
    content0 skA0 skB0 (by simp [skA0]) (by simp [skB0]) msg0
    (EncryptMessage_pk gcmSealW hkdfW hkdfW_len r0 content0 skA0 skB0
      (by simp [r0]) (by simp [skA0])) 0 0
  have l1 : 0 < msg0.content.length := by
    simp [msg0, r0, List.length_append]
  have l2 : 0 < msg0.aesSecret.length := by
    simp [msg0, r0, List.length_append]
  have l3 : 0 < msg0.sharedSecretSalt.length := by
    simp [msg0, r0]
  exact ⟨l1, h.1 l1, l2, h.2.1 l2, l3, h.2.2 l3⟩

/-- C10: `DecryptMessage` is not total.  If the envelope's `aesSecret`
is shorter than the 12-byte nonce size the slicing panics (and in
particular no error is returned), and likewise for `content` once key
unwrapping succeeds; the authentication-error return path is reachable
only for fields at least nonce-length long. -/
theorem C10_decrypt_short_fields_panic
    (gcmOpen : Bytes → Bytes → Bytes → Option Bytes)
    (hkdfKey : Bytes → Bytes → Nat → Bytes) (hL : HKDFLen hkdfKey)
    (msg : Message) (skA skB : Bytes) (hB : skB.length = 32) :
    (msg.aesSecret.length < gcmNonceSize →
      DecryptMessage gcmOpen hkdfKey msg (pkOf skA) skB =
        .panicked "slice bounds out of range") ∧
    (∀ km, gcmNonceSize ≤ msg.aesSecret.length →
      gcmOpen (hkdfKey (sharedBytes skB skA) msg.sharedSecretSalt sha3Size)
        (msg.aesSecret.take gcmNonceSize) (msg.aesSecret.drop gcmNonceSize)
        = some km →
      aesKeyLenOK km = true →
      msg.content.length < gcmNonceSize →
      DecryptMessage gcmOpen hkdfKey msg (pkOf skA) skB =
        .panicked "slice bounds out of range") ∧
    (msg.aesSecret.length < gcmNonceSize →
      ∀ e, DecryptMessage gcmOpen hkdfKey msg (pkOf skA) skB ≠ .err e) := by
  refine ⟨?_, ?_, ?_⟩
  · intro hshort
    exact DecryptMessage_panic_aesSecret gcmOpen hkdfKey hL msg skA skB hB
      hshort
  · intro km h12 hOpen hkm hshort
    have hK : aesKeyLenOK (hkdfKey (sharedBytes skB skA)
        msg.sharedSecretSalt sha3Size) = true := aesKeyLenOK_32 _ (hL _ _)
    rw [DecryptMessage_step gcmOpen hkdfKey msg skA skB hB hK h12, hOpen]
    simp only [hkm, if_true]
    rw [if_neg (Nat.not_le.mpr hshort)]
  · intro hshort e heq
    rw [DecryptMessage_panic_aesSecret gcmOpen hkdfKey hL msg skA skB hB
      hshort] at heq
    exact GoResult.noConfusion heq

/-- Witness for C10: the empty envelope panics (aesSecret branch), and
a concrete envelope with a valid key wrap but 1-byte content panics
(content branch). -/
theorem C10_decrypt_short_fields_panic_witness :
    DecryptMessage gcmOpenW hkdfW ⟨[], [], []⟩ (pkOf skA0) skB0 =
      .panicked "slice bounds out of range" ∧
    DecryptMessage gcmOpenW hkdfW
      ⟨[5], List.replicate 12 4 ++ gcmSealW
        (hkdfW (sharedBytes skB0 skA0) (List.replicate 32 9) sha3Size)
        (List.replicate 12 4) (List.replicate 16 6),
        List.replicate 32 9⟩ (pkOf skA0) skB0 =
      .panicked "slice bounds out of range" := by
  constructor
  · exact (C10_decrypt_short_fields_panic gcmOpenW hkdfW hkdfW_len
      ⟨[], [], []⟩ skA0 skB0 (by simp [skB0])).1 (by simp [gcmNonceSize])
  · refine (C10_decrypt_short_fields_panic gcmOpenW hkdfW hkdfW_len
      _ skA0 skB0 (by simp [skB0])).2.1 (List.replicate 16 6) ?_ ?_ ?_ ?_
    · simp [gcmNonceSize, List.length_append]
    · show gcmOpenW _ _ _ = _
      rw [show (gcmNonceSize : Nat) = 12 from rfl,
        take_len_append _ _ _ (by simp),
        drop_len_append _ _ _ (by simp)]
      exact gcmW_correct _ _ _
    · simp [aesKeyLenOK]
    · simp [gcmNonceSize]

/- ------------------------------------------------------------------
Evaluation lemmas for the JWT verifiers.
------------------------------------------------------------------ -/

theorem VerifyAccess_eq (now : Int) (t : Token) :
    VerifyAccess now t =
      if t.alg ≠ .EdDSA then
        .err "token is unverifiable: unexpected signing method"
      else if t.key ≠ .accessKey then
        .err "token signature is invalid: ed25519: verification error"
      else if ¬ now < t.claims.exp then
        .err "token has invalid claims: token is expired"
      else if ¬ (t.claims.iss = issRefresh ∨ t.claims.iss = issSignin) then
        .err "invalid token"
      else if t.claims.iat ≥ now then .err "invalid token"
      else if t.claims.exp < now then .err "token expired"
      else if t.claims.typ ≠ "access_token" then .err "invalid token"
      else .ok t.claims := by
  unfold VerifyAccess jwtParse
  by_cases h1 : t.alg ≠ .EdDSA
  · rw [if_pos h1, if_pos h1]
  · rw [if_neg h1, if_neg h1]
    by_cases h2 : t.key ≠ .accessKey
    · rw [if_pos h2, if_pos h2]
    · rw [if_neg h2, if_neg h2]
      by_cases h3 : ¬ now < t.claims.exp
      · rw [if_pos h3, if_pos h3]
      · rw [if_neg h3, if_neg h3]

theorem VerifyRefresh_eq (now : Int) (t : Token) :
    VerifyRefresh now t =
      if t.alg ≠ .EdDSA then
        .err "token is unverifiable: unexpected signing method"
      else if t.key ≠ .refreshKey then
        .err "token signature is invalid: ed25519: verification error"
      else if ¬ now < t.claims.exp then
        .err "token has invalid claims: token is expired"
      else if t.claims.iss ≠ issSignin then .err "invalid token"
      else if t.claims.iat ≥ now then .err "invalid token"
      else if t.claims.exp < now then .err "token expired"
      else .ok t.claims := by
  unfold VerifyRefresh jwtParse
  by_cases h1 : t.alg ≠ .EdDSA
  · rw [if_pos h1, if_pos h1]
  · rw [if_neg h1, if_neg h1]
    by_cases h2 : t.key ≠ .refreshKey
    · rw [if_pos h2, if_pos h2]
    · rw [if_neg h2, if_neg h2]
      by_cases h3 : ¬ now < t.claims.exp
      · rw [if_pos h3, if_pos h3]
      · rw [if_neg h3, if_neg h3]

/-- C6: `NewAccess` produces an EdDSA token under the access private
key with `exp = iat + 2h` and `typ = "access_token"`; `NewRefresh`
produces one under the refresh private key with `exp = iat + 7d` and
`typ = "refresh_token"` (both carry the requested `sub` and `iss`). -/
theorem C6_token_issuance (now : Int) (id iss : String) :
    (NewAccess now id iss).alg = .EdDSA ∧
    (NewAccess now id iss).key = .accessKey ∧
    (NewAccess now id iss).claims.sub = id ∧
    (NewAccess now id iss).claims.iss = iss ∧
    (NewAccess now id iss).claims.typ = "access_token" ∧
    (NewAccess now id iss).claims.exp =
      (NewAccess now id iss).claims.iat + 7200 ∧
    (NewRefresh now id iss).alg = .EdDSA ∧
    (NewRefresh now id iss).key = .refreshKey ∧
    (NewRefresh now id iss).claims.sub = id ∧
    (NewRefresh now id iss).claims.iss = iss ∧
    (NewRefresh now id iss).claims.typ = "refresh_token" ∧
    (NewRefresh now id iss).claims.exp =
      (NewRefresh now id iss).claims.iat + 604800 :=
  ⟨rfl, rfl, rfl, rfl, rfl, rfl, rfl, rfl, rfl, rfl, rfl, rfl⟩

/-- C2 counterexample: a freshly issued token verified at the very
second of issuance (`now = iat`) is rejected, because the code requires
`iat` to be strictly less than the current time — contradicting the
claimed acceptance window `[iat, exp)` and the claimed immediate
freshness. -/
theorem C2_counterexample :
    VerifyAccess 0 (NewAccess 0 "u" issSignin) = .err "invalid token" := by
  decide

/-- C2 (amended): a correctly signed, well-formed token is accepted
exactly while `now ∈ (iat, exp)` — strictly after issuance and strictly
before expiry; in particular a fresh token is accepted one second after
issuance (returning `sub = id`), not at the issuance second. -/
theorem C2_verify_window (t : Token) (now : Int)
    (halg : t.alg = .EdDSA) :
    (t.key = .accessKey →
      (t.claims.iss = issRefresh ∨ t.claims.iss = issSignin) →
      t.claims.typ = "access_token" →
      (VerifyAccess now t = .ok t.claims ↔
        t.claims.iat < now ∧ now < t.claims.exp)) ∧
    (t.key = .refreshKey → t.claims.iss = issSignin →
      (VerifyRefresh now t = .ok t.claims ↔
        t.claims.iat < now ∧ now < t.claims.exp)) ∧
    (∀ iat id iss, iss = issRefresh ∨ iss = issSignin →
      VerifyAccess (iat + 1) (NewAccess iat id iss) =
        .ok ⟨id, iss, iat + 7200, iat, "access_token"⟩) := by
  refine ⟨?_, ?_, ?_⟩
  · intro hkey hiss htyp
    rw [VerifyAccess_eq]
    simp only [halg, hkey, htyp, ne_eq, not_true_eq_false, if_false,
      not_false_eq_true]
    by_cases hexp : now < t.claims.exp
    · by_cases hiat : t.claims.iat < now
      · have h1 : ¬ t.claims.iat ≥ now := by omega
        have h2 : ¬ t.claims.exp < now := by omega
        simp [hexp, hiat, h1, h2, hiss]
      · have h1 : t.claims.iat ≥ now := by omega
        simp [hexp, h1, hiss, hiat]
    · simp [hexp]
  · intro hkey hiss
    rw [VerifyRefresh_eq]
    simp only [halg, hkey, ne_eq, not_true_eq_false, if_false,
      not_false_eq_true]
    by_cases hexp : now < t.claims.exp
    · by_cases hiat : t.claims.iat < now
      · have h1 : ¬ t.claims.iat ≥ now := by omega
        have h2 : ¬ t.claims.exp < now := by omega
        simp [hexp, hiat, h1, h2, hiss]
      · have h1 : t.claims.iat ≥ now := by omega
        simp [hexp, h1, hiss, hiat]
    · simp [hexp]
  · intro iat id iss hiss
    rw [VerifyAccess_eq]
    have h1 : iat + 1 < iat + 7200 := by omega
    have h2 : ¬ iat ≥ iat + 1 := by omega
    have h3 : ¬ (iat + 7200 : Int) < iat + 1 := by omega
    simp [NewAccess, hiss, h1, h2, h3]

/-- Witness for C2's amended theorem at a concrete token and times. -/
theorem C2_verify_window_witness :
    (VerifyAccess 5 (NewAccess 0 "u" issSignin) =
        .ok (NewAccess 0 "u" issSignin).claims ↔
      (NewAccess 0 "u" issSignin).claims.iat < 5 ∧
        (5 : Int) < (NewAccess 0 "u" issSignin).claims.exp) ∧
    VerifyAccess (0 + 1) (NewAccess 0 "u" issSignin) =
      .ok ⟨"u", issSignin, 0 + 7200, 0, "access_token"⟩ :=
  ⟨(C2_verify_window (NewAccess 0 "u" issSignin) 5 rfl).1 rfl
      (Or.inr rfl) rfl,
    (C2_verify_window (NewAccess 0 "u" issSignin) 5 rfl).2.2 0 "u"
      issSignin (Or.inr rfl)⟩

/-- C3 counterexample: `VerifyRefresh` accepts a token whose `typ`
claim is "bogus" (valid signature under the refresh key, valid issuer,
`iat < now < exp`), because the source performs no `typ` check in
`VerifyRefresh` — refuting the claim that it rejects every token whose
`typ` is not "refresh_token". -/
theorem C3_counterexample :
    VerifyRefresh 50
      ⟨.EdDSA, ⟨"u", issSignin, 100, 0, "bogus"⟩, .refreshKey⟩ =
      .ok ⟨"u", issSignin, 100, 0, "bogus"⟩ := by
  decide

/-- C3 (amended): `VerifyAccess` rejects any otherwise-valid token
whose `typ` is not "access_token"; `VerifyRefresh` performs no `typ`
check at all and accepts an otherwise-valid token with any `typ`. -/
theorem C3_typ_enforcement (t : Token) (now : Int)
    (halg : t.alg = .EdDSA) :
    (t.key = .accessKey →
      (t.claims.iss = issRefresh ∨ t.claims.iss = issSignin) →
      t.claims.iat < now → now < t.claims.exp →
      t.claims.typ ≠ "access_token" →
      VerifyAccess now t = .err "invalid token") ∧
    (t.key = .refreshKey → t.claims.iss = issSignin →
      t.claims.iat < now → now < t.claims.exp →
      VerifyRefresh now t = .ok t.claims) := by
  constructor
  · intro hkey hiss hiat hexp htyp
    rw [VerifyAccess_eq]
    have h1 : ¬ t.claims.iat ≥ now := by omega
    have h2 : ¬ t.claims.exp < now := by omega
    simp [halg, hkey, hiss, hexp, h1, h2, htyp]
  · intro hkey hiss hiat hexp
    rw [VerifyRefresh_eq]
    have h1 : ¬ t.claims.iat ≥ now := by omega
    have h2 : ¬ t.claims.exp < now := by omega
    simp [halg, hkey, hiss, hexp, h1, h2]

/-- Witness for C3's amended theorem: a wrong-`typ` token is rejected
by `VerifyAccess` and accepted by `VerifyRefresh`. -/
theorem C3_typ_enforcement_witness :
    VerifyAccess 50 ⟨.EdDSA, ⟨"u", issSignin, 100, 0, "zzz"⟩, .accessKey⟩ =
      .err "invalid token" ∧
    VerifyRefresh 50 ⟨.EdDSA, ⟨"u", issSignin, 100, 0, "zzz"⟩, .refreshKey⟩ =
      .ok ⟨"u", issSignin, 100, 0, "zzz"⟩ :=
  ⟨(C3_typ_enforcement ⟨.EdDSA, ⟨"u", issSignin, 100, 0, "zzz"⟩,
      .accessKey⟩ 50 rfl).1 rfl (Or.inr rfl) (by decide) (by decide)
      (by decide),
    (C3_typ_enforcement ⟨.EdDSA, ⟨"u", issSignin, 100, 0, "zzz"⟩,
      .refreshKey⟩ 50 rfl).2 rfl rfl (by decide) (by decide)⟩

/-- C5: for otherwise-valid tokens, `VerifyAccess` accepts exactly the
two issuers ".../refresh-token" and ".../signin" and rejects every
other issuer; `VerifyRefresh` accepts exactly ".../signin". -/
theorem C5_issuer_sets (t : Token) (now : Int) (halg : t.alg = .EdDSA)
    (hiat : t.claims.iat < now) (hexp : now < t.claims.exp) :
    (t.key = .accessKey → t.claims.typ = "access_token" →
      ((t.claims.iss = issRefresh ∨ t.claims.iss = issSignin) →
        VerifyAccess now t = .ok t.claims) ∧
      (¬ (t.claims.iss = issRefresh ∨ t.claims.iss = issSignin) →
        VerifyAccess now t = .err "invalid token")) ∧
    (t.key = .refreshKey →
      (t.claims.iss = issSignin → VerifyRefresh now t = .ok t.claims) ∧
      (t.claims.iss ≠ issSignin →
        VerifyRefresh now t = .err "invalid token")) := by
  have h1 : ¬ t.claims.iat ≥ now := by omega
  have h2 : ¬ t.claims.exp < now := by omega
  constructor
  · intro hkey htyp
    constructor
    · intro hiss
      rw [VerifyAccess_eq]
      simp [halg, hkey, hiss, hexp, h1, h2, htyp]
    · intro hiss
      rw [VerifyAccess_eq]
      simp [halg, hkey, hiss, hexp, h1, h2, htyp]
  · intro hkey
    constructor
    · intro hiss
      rw [VerifyRefresh_eq]
      simp [halg, hkey, hiss, hexp, h1, h2]
    · intro hiss
      rw [VerifyRefresh_eq]
      simp [halg, hkey, hiss, hexp, h1, h2]

/-- Witness for C5: a good-issuer token is accepted and a bad-issuer
token is rejected, for both verifiers. -/
theorem C5_issuer_sets_witness :
    VerifyAccess 50
      ⟨.EdDSA, ⟨"u", issRefresh, 100, 0, "access_token"⟩, .accessKey⟩ =
      .ok ⟨"u", issRefresh, 100, 0, "access_token"⟩ ∧
    VerifyAccess 50
      ⟨.EdDSA, ⟨"u", "evil", 100, 0, "access_token"⟩, .accessKey⟩ =
      .err "invalid token" ∧
    VerifyRefresh 50
      ⟨.EdDSA, ⟨"u", issSignin, 100, 0, "refresh_token"⟩, .refreshKey⟩ =
      .ok ⟨"u", issSignin, 100, 0, "refresh_token"⟩ ∧
    VerifyRefresh 50
      ⟨.EdDSA, ⟨"u", "evil", 100, 0, "refresh_token"⟩, .refreshKey⟩ =
      .err "invalid token" :=
  ⟨((C5_issuer_sets ⟨.EdDSA, ⟨"u", issRefresh, 100, 0, "access_token"⟩,
        .accessKey⟩ 50 rfl (by decide) (by decide)).1 rfl rfl).1
      (Or.inl rfl),
    ((C5_issuer_sets ⟨.EdDSA, ⟨"u", "evil", 100, 0, "access_token"⟩,
        .accessKey⟩ 50 rfl (by decide) (by decide)).1 rfl rfl).2
      (by decide),
    ((C5_issuer_sets ⟨.EdDSA, ⟨"u", issSignin, 100, 0, "refresh_token"⟩,
        .refreshKey⟩ 50 rfl (by decide) (by decide)).2 rfl).1 rfl,
    ((C5_issuer_sets ⟨.EdDSA, ⟨"u", "evil", 100, 0, "refresh_token"⟩,
        .refreshKey⟩ 50 rfl (by decide) (by decide)).2 rfl).2
      (by decide)⟩

/-- A successful parse forces the expiry to be strictly in the
future. -/
theorem jwtParse_ok_exp (expected : SigKey) (now : Int) (t : Token)
    (c : Claims) (h : jwtParse expected now t = .ok c) :
    c = t.claims ∧ now < t.claims.exp := by
  unfold jwtParse at h
  split_ifs at h with h1 h2 h3
  all_goals
    first
      | exact GoResult.noConfusion h
      | (injection h with hc; exact ⟨hc.symm, h3⟩)

/-- `jwtParse` never returns the custom "token expired" error. -/
theorem jwtParse_ne_expired (expected : SigKey) (now : Int) (t : Token) :
    jwtParse expected now t ≠ .err "token expired" := by
  unfold jwtParse
  split_ifs <;> simp

/-- C7 counterexample: a token verified one second after its validity
window is rejected, but with the jwt library's parse-time expiry error,
not the function's own "token expired" error — the claimed error
message never occurs. -/
theorem C7_counterexample :
    VerifyAccess 7201 (NewAccess 0 "u" issSignin) =
      .err "token has invalid claims: token is expired" ∧
    VerifyAccess 7201 (NewAccess 0 "u" issSignin) ≠
      .err "token expired" := by
  constructor
  · decide
  · decide

/-- C7 (amended): a token verified at `iat + validity_window + 1s` is
rejected with the parse-stage expiry error ("token has invalid claims:
token is expired"); the verifier's own "token expired" branch is
unreachable, because parsing already rejects any token whose expiry is
not strictly in the future. -/
theorem C7_expiry (iat : Int) (id iss : String) :
    VerifyAccess (iat + 7201) (NewAccess iat id iss) =
      .err "token has invalid claims: token is expired" ∧
    VerifyRefresh (iat + 604801) (NewRefresh iat id iss) =
      .err "token has invalid claims: token is expired" ∧
    (∀ now t, VerifyAccess now t ≠ .err "token expired") ∧
    (∀ now t, VerifyRefresh now t ≠ .err "token expired") := by
  refine ⟨?_, ?_, ?_, ?_⟩
  · rw [VerifyAccess_eq]
    have h : ¬ (iat + 7201 : Int) < iat + 7200 := by omega
    simp [NewAccess, h]
  · rw [VerifyRefresh_eq]
    have h : ¬ (iat + 604801 : Int) < iat + 604800 := by omega
    simp [NewRefresh, h]
  · intro now t heq
    rw [VerifyAccess_eq] at heq
    split_ifs at heq with h1 h2 h3 h4 h5 h6 h7 <;>
      first
        | exact GoResult.noConfusion heq
        | (injection heq with hs; exact absurd hs (by decide))
        | omega
  · intro now t heq
    rw [VerifyRefresh_eq] at heq
    split_ifs at heq with h1 h2 h3 h4 h5 h6 <;>
      first
        | exact GoResult.noConfusion heq
        | (injection heq with hs; exact absurd hs (by decide))
        | omega
